/-
  Verification of the CoC_Telegramm caching proxy / notification bot.

  Shallow embedding of the components under analysis:
  * backend/app/cache.py        — Redis-backed JSON cache (get_cached_json / set_cached_json)
  * backend/app/coc_client.py   — tag normalization, fetch_with_cache, aggregation functions
  * backend/app/main.py         — the /top-players route limit handling
  * bot/app/bindings_storage.py — SQLite bindings table and reminder cooldowns
  * bot/app/bot.py              — parse_coc_time, attacks_used, war_reminder_job

  Conventions used throughout:
  * Python strings are modeled as `List Char`; only ASCII behavior is relevant
    for the tag alphabet and the fixed-width CoC timestamps.
  * JSON payloads are handled opaquely by the cache and client (the only thing
    ever inspected is dict truthiness, i.e. emptiness), so payloads are modeled
    as flat string-keyed objects.
  * `datetime` values are modeled as integers counting microseconds since the
    Unix epoch (Python datetimes are exact to the microsecond).
  * SQLite tables are modeled as lists of rows in rowid (insertion) order;
    `ON CONFLICT ... DO UPDATE` replaces the single conflicting row in place.
-/
import Mathlib

namespace CocTelegramm

/-! ### JSON payloads and the Redis cache (backend/app/cache.py) -/

/-- A JSON leaf value.  Payload contents are never inspected by the cache or
by `fetch_with_cache`, so leaves are modeled as strings and integers. -/
inductive JVal where
  | s (v : String)
  | n (v : Int)
deriving DecidableEq

/-- A JSON document as returned by the CoC API: a Python `dict[str, Any]`. -/
abbrev JsonObj := List (String × JVal)

/-- Python truthiness of a `dict`: truthy iff non-empty. -/
def pyTruthyObj (v : JsonObj) : Bool := !v.isEmpty

/-- The Redis store: string keys to stored JSON documents.  TTL expiry is
enforced passively by the store itself; an entry being present models an
entry whose TTL has not yet expired. -/
abbrev CacheState := List (String × JsonObj)

/-- `redis.get(key)`: first (unique) entry for the key, if any. -/
def redis_get (c : CacheState) (k : String) : Option JsonObj :=
  (c.find? (fun e => e.1 = k)).map (fun e => e.2)

/-- `get_cached_json` (cache.py lines 7-11): returns `None` when the key is
absent, else the parsed document.  The stored bytes are `json.dumps` of a
dict and hence never empty, so the `if not cached` guard is equivalent to
the absence check, and `json.loads` inverts `json.dumps`. -/
def get_cached_json (c : CacheState) (k : String) : Option JsonObj :=
  redis_get c k

/-- `set_cached_json` (cache.py lines 14-15): `redis.set(key, dumps(value), ex=ttl)`
overwrites the entry for the key wholesale (the ttl is consumed by the store). -/
def set_cached_json : CacheState → String → JsonObj → Int → CacheState
  | [], k, v, _ => [(k, v)]
  | e :: rest, k, v, ttl =>
      if e.1 = k then (k, v) :: rest else e :: set_cached_json rest k v ttl

/-! ### fetch_with_cache (backend/app/coc_client.py lines 54-89) -/

/-- Outcome of the single upstream `client.get(url)` call. -/
inductive UpstreamOutcome where
  | timeout
  | connectError
  | response (status : Int) (body : JsonObj)

/-- The typed error taxonomy raised by `fetch_with_cache`:
`TimeoutError`, `RuntimeError("CoC API unavailable")`, `UnauthorizedError`,
`ForbiddenError`, `RateLimitError`, `NotFoundError`, `RuntimeError("CoC API error")`. -/
inductive FetchError where
  | timeout
  | unavailable
  | unauthorized
  | forbidden
  | rateLimited
  | notFound
  | upstreamError
deriving DecidableEq

/-- Result of `fetch_with_cache` together with its side effects: the returned
payload or raised error, the cache state afterwards, and how many upstream
HTTP requests were issued. -/
inductive FetchOutcome where
  | ok (v : JsonObj)
  | err (e : FetchError)
deriving DecidableEq

structure FetchResult where
  result : FetchOutcome
  cache : CacheState
  upstreamCalls : Nat
deriving DecidableEq

/-- The cache-miss path of `fetch_with_cache` (coc_client.py lines 65-89):
one upstream call, then either an exception mapped through the taxonomy or,
for any response with status below 400, a JSON parse and a cache write. -/
def fetch_upstream (cache : CacheState) (ttl : Int) (upstream : UpstreamOutcome)
    (cacheKey : String) : FetchResult :=
  match upstream with
  | .timeout => ⟨.err .timeout, cache, 1⟩
  | .connectError => ⟨.err .unavailable, cache, 1⟩
  | .response status body =>
      if status = 401 then ⟨.err .unauthorized, cache, 1⟩
      else if status = 403 then ⟨.err .forbidden, cache, 1⟩
      else if status = 429 then ⟨.err .rateLimited, cache, 1⟩
      else if status = 404 then ⟨.err .notFound, cache, 1⟩
      else if status ≥ 400 then ⟨.err .upstreamError, cache, 1⟩
      else ⟨.ok body, set_cached_json cache cacheKey body ttl, 1⟩

/-- `fetch_with_cache` (coc_client.py lines 54-89).  The hit test is
`if cached:` — Python truthiness of the `Optional[dict]`, so an entry whose
stored document is the empty object falls through to the upstream path. -/
def fetch_with_cache (cache : CacheState) (ttl : Int) (upstream : UpstreamOutcome)
    (cacheKey : String) : FetchResult :=
  match get_cached_json cache cacheKey with
  | some v =>
      if pyTruthyObj v then ⟨.ok v, cache, 0⟩
      else fetch_upstream cache ttl upstream cacheKey
  | none => fetch_upstream cache ttl upstream cacheKey

/-! ### Tag normalization (backend/app/coc_client.py lines 38-47; the copy in
bot/app/bot.py lines 152-160 is textually identical). -/

/-- The fixed 14-character tag alphabet `0289PYLQGRJCUV` (TAG_PATTERN). -/
def isTagChar (c : Char) : Bool :=
  c = '0' ∨ c = '2' ∨ c = '8' ∨ c = '9' ∨ c = 'P' ∨ c = 'Y' ∨ c = 'L' ∨
  c = 'Q' ∨ c = 'G' ∨ c = 'R' ∨ c = 'J' ∨ c = 'C' ∨ c = 'U' ∨ c = 'V'

/-- The whitespace characters stripped by Python `str.strip()` (restricted to
the ASCII whitespace set; tags are ASCII). -/
def pyIsSpace (c : Char) : Bool :=
  c = ' ' ∨ c = '\t' ∨ c = '\n' ∨ c = '\x0d' ∨ c = '\x0b' ∨ c = '\x0c'

/-- ASCII uppercasing of one character, as `str.upper()` acts on ASCII input
(every other character is left unchanged). -/
def asciiUpper (c : Char) : Char :=
  match c with
  | 'a' => 'A' | 'b' => 'B' | 'c' => 'C' | 'd' => 'D' | 'e' => 'E' | 'f' => 'F'
  | 'g' => 'G' | 'h' => 'H' | 'i' => 'I' | 'j' => 'J' | 'k' => 'K' | 'l' => 'L'
  | 'm' => 'M' | 'n' => 'N' | 'o' => 'O' | 'p' => 'P' | 'q' => 'Q' | 'r' => 'R'
  | 's' => 'S' | 't' => 'T' | 'u' => 'U' | 'v' => 'V' | 'w' => 'W' | 'x' => 'X'
  | 'y' => 'Y' | 'z' => 'Z'
  | other => other

/-- `tag.replace(" ", "")`: removes every space character. -/
def pyRemoveSpaces (l : List Char) : List Char := l.filter (fun c => c ≠ ' ')

/-- `str.lstrip()` of whitespace. -/
def pyLStrip (l : List Char) : List Char := l.dropWhile pyIsSpace

/-- `str.rstrip()` of whitespace. -/
def pyRStrip (l : List Char) : List Char := (l.reverse.dropWhile pyIsSpace).reverse

/-- `str.strip()`: whitespace removed from both ends. -/
def pyStrip (l : List Char) : List Char := pyRStrip (pyLStrip l)

/-- `str.upper()` on ASCII text. -/
def pyUpper (l : List Char) : List Char := l.map asciiUpper

/-- `normalize_tag` (coc_client.py lines 38-47): clean, ensure a leading `#`,
strip all leading `#` characters for validation, and return the cleaned
string when the remainder is a non-empty word over the tag alphabet;
`none` models raising `InvalidTagError`. -/
def normalize_tag (tag : List Char) : Option (List Char) :=
  let stripped := pyUpper (pyStrip (pyRemoveSpaces tag))
  let cleaned := if stripped.head? = some '#' then stripped else '#' :: stripped
  let raw := cleaned.dropWhile (fun c => c = '#')
  if raw.isEmpty ∨ ¬ raw.all isTagChar then none else some cleaned

/-! ### Clan member list and ranking by trophies
(backend/app/coc_client.py lines 113-123, backend/app/main.py lines 129-136) -/

/-- One entry of the clan `memberList` payload.  The `.get(key, default)`
accesses in the source are modeled as total fields holding the
default-applied value. -/
structure ClanMember where
  tag : String
  name : String
  townHallLevel : Int
  trophies : Int
  expLevel : Int
  warStars : Int
  donations : Int
  warPreference : String
  leagueId : Int
deriving DecidableEq

/-- The clan payload fields consumed by `get_clan_members`. -/
structure ClanPayload where
  name : Option String
  tag : Option String
  memberList : List ClanMember

/-- `sorted(members, key=lambda m: m.get("trophies", 0), reverse=True)`.
Python `sorted` is a stable sort; with `reverse=True` elements with equal
keys keep their input order.  Any stable sort for the total preorder
"trophies greater or equal" produces the same list, so insertion sort is
used here. -/
def sortByTrophiesDesc (members : List ClanMember) : List ClanMember :=
  List.insertionSort (fun a b => b.trophies ≤ a.trophies) members

structure ClanMembersResult where
  clanName : Option String
  clanTag : Option String
  members : List ClanMember
deriving DecidableEq

/-- `get_clan_members` (coc_client.py lines 113-123): sort the member list by
trophies descending and truncate to `limit` (Python default argument 50). -/
def get_clan_members (clan : ClanPayload) (limit : Nat := 50) : ClanMembersResult :=
  ⟨clan.name, clan.tag, (sortByTrophiesDesc clan.memberList).take limit⟩

/-- The `/top-players` route (main.py lines 129-136) delegates with
`limit=min(limit, 50)`, capping the caller-supplied limit at 50. -/
def top_players_route (clan : ClanPayload) (limit : Nat := 10) : ClanMembersResult :=
  get_clan_members clan (min limit 50)

/-! ### Next-war readiness scores (backend/app/coc_client.py lines 335-471) -/

structure Hero where
  level : Int
deriving DecidableEq

structure HeroEquipment where
  level : Int
deriving DecidableEq

/-- The slice of a player payload consumed by `get_next_war_analysis`. -/
structure PlayerData where
  heroEquipment : List HeroEquipment
  heroes : List Hero
deriving DecidableEq

structure WarLogAttack where
  destructionPercentage : Rat
deriving DecidableEq

structure WarLogMember where
  tag : String
  stars : Int
  attacks : List WarLogAttack
deriving DecidableEq

/-- The most recent war-log entry (its `clan.members` list). -/
structure WarLogEntry where
  clanMembers : List WarLogMember
deriving DecidableEq

/-- The last-war lookup loop (coc_client.py lines 402-409): iterate over every
member of the last war without breaking, overwriting `last_war_stars` on each
tag match and `last_war_destruction` only when the matching member has at
least one attack. -/
def lastWarPerf (clanMembers : List WarLogMember) (tag : String) : Int × Rat :=
  clanMembers.foldl
    (fun acc wm =>
      if wm.tag = tag then
        (wm.stars,
         match wm.attacks.head? with
         | some a => a.destructionPercentage
         | none => acc.2)
      else acc)
    (0, 0)

/-- The per-member ranking record built by `get_next_war_analysis`. -/
structure MemberRanking where
  tag : String
  heroesLevel : Int
  heroEquipmentScore : Int
  lastWarStars : Int
  lastWarDestruction : Rat
  combatReadiness : Int
  warReadiness : Rat
deriving DecidableEq

/-- The per-member body of the loop in `get_next_war_analysis`
(coc_client.py lines 367-453).  `playerData = none` models the
`except Exception: player_data = {}` fallback of the per-member player
lookup; `lastWar = none` models an empty war log (`last_war = {}`, which is
falsy, so the lookup loop is skipped). -/
def analyze_member (member : ClanMember) (playerData : Option PlayerData)
    (lastWar : Option WarLogEntry) : MemberRanking :=
  let pd := playerData.getD ⟨[], []⟩
  let equipment_score := (pd.heroEquipment.map (fun e => e.level)).sum
  let heroes_level := (pd.heroes.map (fun h => h.level)).sum
  let perf :=
    match lastWar with
    | none => ((0 : Int), (0 : Rat))
    | some lw => lastWarPerf lw.clanMembers member.tag
  let combat_score :=
    heroes_level * 2 +
    equipment_score +
    member.expLevel +
    (if member.warPreference = "in" then 50 else -50) +
    Int.fdiv member.trophies 100
  let war_readiness : Rat :=
    (perf.1 * 50 : Int) +
    perf.2 +
    (combat_score : Rat) +
    (member.warStars : Rat) / 10 +
    (member.leagueId : Rat) / 1000
  ⟨member.tag, heroes_level, equipment_score, perf.1, perf.2, combat_score, war_readiness⟩

/-! ### Bindings storage (bot/app/bindings_storage.py) -/

/-- A row of the `bindings` table (the `Binding` dataclass, lines 12-19). -/
structure Binding where
  telegram_user_id : Int
  group_id : Int
  coc_player_tag : String
  telegram_username : Option String
  telegram_full_name : String
  created_at : String
deriving DecidableEq

/-- The `bindings` table, rows in rowid (insertion) order.  The schema
declares `UNIQUE(group_id, telegram_user_id)`. -/
abbrev BindingsTable := List Binding

/-- Whether a row carries the given `(group_id, telegram_user_id)` key. -/
def bindingKeyIs (g u : Int) (b : Binding) : Bool :=
  (b.group_id = g) && (b.telegram_user_id = u)

/-- `upsert_binding` (lines 69-102): `INSERT ... ON CONFLICT(group_id,
telegram_user_id) DO UPDATE SET` every payload column to the excluded row's
values.  The UNIQUE constraint guarantees at most one conflicting row; the
update replaces that row in place (same rowid), otherwise the row is
appended. -/
def upsert_binding : BindingsTable → Binding → BindingsTable
  | [], b => [b]
  | r :: rest, b =>
      if bindingKeyIs b.group_id b.telegram_user_id r then b :: rest
      else r :: upsert_binding rest b

/-- `get_binding` (lines 120-133): `SELECT * ... WHERE group_id = ? AND
telegram_user_id = ?` with `fetchone()`. -/
def get_binding (t : BindingsTable) (group_id telegram_user_id : Int) : Option Binding :=
  t.find? (bindingKeyIs group_id telegram_user_id)

/-- `get_bindings_for_tags` (lines 145-162): empty tag list short-circuits to
an empty result; otherwise rows of the group whose tag is in the list, in
table order. -/
def get_bindings_for_tags (t : BindingsTable) (group_id : Int) (tags : List String) :
    List Binding :=
  if tags.isEmpty then []
  else t.filter (fun b => b.group_id = group_id ∧ tags.contains b.coc_player_tag)

/-- `get_group_ids` (lines 164-169): `SELECT DISTINCT group_id FROM bindings`.
The result lists every group with at least one binding exactly once (the
row order of a DISTINCT scan is unspecified). -/
def get_group_ids (t : BindingsTable) : List Int :=
  (t.map (fun b => b.group_id)).dedup

/-! ### Reminder cooldowns (bot/app/bindings_storage.py lines 171-215)

The `reminder_cooldowns` table has `PRIMARY KEY(group_id, telegram_user_id)`
and stores `last_reminded_at` as an ISO-8601 string via
`datetime.isoformat()`; `get_cooldowns` parses it back with
`datetime.fromisoformat`, which inverts `isoformat`, so timestamps are
modeled directly as integers (microseconds since the epoch). -/

/-- A cooldown row: (group_id, telegram_user_id, last_reminded_at). -/
abbrev CooldownTable := List (Int × Int × Int)

/-- The stored timestamp for one (group, user) key, if any. -/
def cd_lookup (t : CooldownTable) (g u : Int) : Option Int :=
  (t.find? (fun r => r.1 = g ∧ r.2.1 = u)).map (fun r => r.2.2)

/-- One `INSERT ... ON CONFLICT(group_id, telegram_user_id) DO UPDATE SET
last_reminded_at=excluded.last_reminded_at` row write. -/
def cd_upsert : CooldownTable → Int → Int → Int → CooldownTable
  | [], g, u, ts => [(g, u, ts)]
  | r :: rest, g, u, ts =>
      if r.1 = g ∧ r.2.1 = u then (g, u, ts) :: rest
      else r :: cd_upsert rest g u ts

/-- `get_cooldowns` (lines 171-194): the map from each requested user id to
its stored timestamp; users outside the requested list or without a row are
absent.  (Rows whose stored text fails `fromisoformat` are skipped in the
source; every value the bot itself stores round-trips, so the parse never
fails in the model.) -/
def get_cooldowns (t : CooldownTable) (group_id : Int) (user_ids : List Int) :
    Int → Option Int :=
  fun u => if user_ids.contains u then cd_lookup t group_id u else none

/-- `set_cooldowns` (lines 196-215): batch upsert, one row per user, all with
the same timestamp; an empty user list returns without touching the table. -/
def set_cooldowns (t : CooldownTable) (group_id : Int) (user_ids : List Int)
    (ts : Int) : CooldownTable :=
  user_ids.foldl (fun acc u => cd_upsert acc group_id u ts) t

/-! ### CoC timestamp parsing (bot/app/bot.py lines 172-180)

`parse_coc_time` tries `datetime.strptime` with `"%Y%m%dT%H%M%S.%fZ"` and
then `"%Y%m%dT%H%M%SZ"`, attaching UTC.  The CoC API emits fixed-width,
zero-padded timestamps; the model parses exactly those (strptime's
additional tolerance for non-zero-padded fields is never exercised by the
upstream).  A parsed datetime is represented as microseconds since the Unix
epoch; `strptime` fails (ValueError) whenever the `datetime` constructor
would reject the fields, which the validity check below reproduces. -/

def digitVal (c : Char) : Nat := c.toNat - 48

def digitsToNat (l : List Char) : Nat := l.foldl (fun a c => a * 10 + digitVal c) 0

def isLeapYear (y : Nat) : Bool := y % 4 = 0 ∧ (y % 100 ≠ 0 ∨ y % 400 = 0)

def daysInMonth (y m : Nat) : Nat :=
  if m = 2 then (if isLeapYear y then 29 else 28)
  else if m = 4 ∨ m = 6 ∨ m = 9 ∨ m = 11 then 30
  else 31

/-- The field ranges accepted by the `datetime` constructor. -/
def validDateTime (y m d h mi s : Nat) : Bool :=
  1 ≤ y ∧ y ≤ 9999 ∧ 1 ≤ m ∧ m ≤ 12 ∧ 1 ≤ d ∧ d ≤ daysInMonth y m ∧
  h ≤ 23 ∧ mi ≤ 59 ∧ s ≤ 59

/-- Days between a Gregorian civil date and 1970-01-01 (standard civil-date
conversion, exact for all constructor-valid dates). -/
def daysFromCivil (y m d : Int) : Int :=
  let y' := if m ≤ 2 then y - 1 else y
  let era := Int.fdiv y' 400
  let yoe := y' - era * 400
  let mp := Int.fdiv ((m + 9).emod 12 * 153 + 2) 5
  let doy := mp + d - 1
  let doe := yoe * 365 + Int.fdiv yoe 4 - Int.fdiv yoe 100 + doy
  era * 146097 + doe - 719468

/-- Microseconds since the Unix epoch of a UTC datetime. -/
def toEpochMicros (y m d h mi s micros : Nat) : Int :=
  ((daysFromCivil y m d) * 86400 + (h : Int) * 3600 + (mi : Int) * 60 + s) * 1000000 + micros

def secondMicros : Int := 1000000

def hourMicros : Int := 3600 * 1000000

/-- Parse the fixed-width date-time prefix `YYYYMMDDTHHMMSS` followed by
either `Z` or `.<1-6 fraction digits>Z` (the`%f` directive scales the
fraction to microseconds). -/
def parseFixedCocTime (l : List Char) : Option Int :=
  match l with
  | y1 :: y2 :: y3 :: y4 :: m1 :: m2 :: d1 :: d2 :: 'T' ::
    h1 :: h2 :: mi1 :: mi2 :: s1 :: s2 :: rest =>
      if ([y1, y2, y3, y4, m1, m2, d1, d2, h1, h2, mi1, mi2, s1, s2].all Char.isDigit) then
        let y := digitsToNat [y1, y2, y3, y4]
        let m := digitsToNat [m1, m2]
        let d := digitsToNat [d1, d2]
        let h := digitsToNat [h1, h2]
        let mi := digitsToNat [mi1, mi2]
        let s := digitsToNat [s1, s2]
        if validDateTime y m d h mi s then
          match rest with
          | ['Z'] => some (toEpochMicros y m d h mi s 0)
          | '.' :: fr =>
              let ds := fr.dropLast
              if fr.getLast? = some 'Z' ∧ ds.all Char.isDigit ∧
                  1 ≤ ds.length ∧ ds.length ≤ 6 then
                some (toEpochMicros y m d h mi s (digitsToNat ds * 10 ^ (6 - ds.length)))
              else none
          | _ => none
        else none
      else none
  | _ => none

/-- `parse_coc_time` (bot.py lines 172-180): `if not value: return None`
covers both a missing and an empty `endTime`; otherwise the two accepted
formats are tried. -/
def parse_coc_time (value : Option String) : Option Int :=
  match value with
  | none => none
  | some s => if s.isEmpty then none else parseFixedCocTime s.data

/-! ### The war reminder job (bot/app/bot.py lines 1205-1303) -/

/-- The `attacks` field of a war clan member: a list, a bare integer, or
absent/other (`member.get("attacks")`). -/
inductive AttacksField where
  | absent
  | ofList (attacks : List WarLogAttack)
  | ofInt (n : Int)
deriving DecidableEq

/-- A member of the war payload's `clan.members` list.  The member `name`
feeds only the text of the mention, so it is not modeled. -/
structure WarMember where
  tag : Option String
  attacks : AttacksField
deriving DecidableEq

/-- `attacks_used` (bot.py lines 183-189): list length if a list, the value
itself if an int, otherwise 0. -/
def attacks_used (m : WarMember) : Int :=
  match m.attacks with
  | .ofList l => l.length
  | .ofInt n => n
  | .absent => 0

/-- The war payload fields consumed by the reminder job.  A missing
`state` or `endTime` key is modeled as `none` (`payload.get(...)`). -/
structure WarPayload where
  state : Option String
  endTime : Option String
  clanMembers : List WarMember
deriving DecidableEq

/-- The tag set built at bot.py lines 1232-1242: members with zero attacks
used and a present, non-empty, valid tag, normalized.  Python collects the
tags into a `set`; only membership in the set is ever consumed
(`IN (...)` in `get_bindings_for_tags`), so a list with possible
duplicates is an equivalent model. -/
def tags_missing_attacks (ms : List WarMember) : List String :=
  ms.filterMap (fun m =>
    if attacks_used m ≠ 0 then none
    else
      match m.tag with
      | none => none
      | some t =>
          if t.isEmpty then none
          else (normalize_tag t.data).map (fun l => String.mk l))

/-- The per-group recipient filter (bot.py lines 1253-1257): a binding is
kept unless the cooldown map holds a timestamp within the last hour
(`if last_reminded and now - last_reminded < timedelta(hours=1): continue`).
Every kept binding contributes exactly one mention and one entry of
`reminded_user_ids` (the custom-title call and the two mention-formatting
branches affect only the message text). -/
def group_recipients (bs : List Binding) (cds : Int → Option Int) (now : Int) :
    List Binding :=
  bs.filter (fun b =>
    match cds b.telegram_user_id with
    | some last => !(now - last < hourMicros)
    | none => true)

/-- Everything observable a reminder tick does: the cooldown table it leaves
behind, the `(group, reminded_user_ids)` of every message send it attempted
(in processing order), and the groups whose send succeeded. -/
structure TickResult where
  cooldowns : CooldownTable
  attempts : List (Int × List Int)
  sent : List Int
deriving DecidableEq

/-- The users due a reminder in one group (bot.py lines 1245-1257): the
group's bindings for the missing-attack tags, minus those suppressed by an
active cooldown, as `reminded_user_ids`.  When the group has no matching
bindings the source `continue`s before reading cooldowns; the recipient
list is empty in exactly that case, so the two skip conditions (`if not
bindings: continue` and `if not mentions: continue`) collapse into
"this list is empty". -/
def group_due (bindings : BindingsTable) (tags : List String) (cd : CooldownTable)
    (now : Int) (g : Int) : List Int :=
  let bs := get_bindings_for_tags bindings g tags
  if bs.isEmpty then []
  else
    let userIds := bs.map (fun b => b.telegram_user_id)
    (group_recipients bs (get_cooldowns cd g userIds) now).map (fun b => b.telegram_user_id)

/-- The per-group loop of `war_reminder_job` (bot.py lines 1244-1303):
compute the group's due users, skip the group when nothing is due,
otherwise send one batched message (`sendOk` tells whether `send_message`
raises) and only on success upsert the cooldowns; a failed send logs and
continues with the next group. -/
def process_groups (bindings : BindingsTable) (tags : List String) (now : Int)
    (sendOk : Int → Bool) : List Int → CooldownTable → TickResult
  | [], cd => ⟨cd, [], []⟩
  | g :: rest, cd =>
      let us := group_due bindings tags cd now g
      if us.isEmpty then process_groups bindings tags now sendOk rest cd
      else if sendOk g then
        let r := process_groups bindings tags now sendOk rest (set_cooldowns cd g us now)
        ⟨r.cooldowns, (g, us) :: r.attempts, g :: r.sent⟩
      else
        let r := process_groups bindings tags now sendOk rest cd
        ⟨r.cooldowns, (g, us) :: r.attempts, r.sent⟩

/-- The conjunction of the early-return guards of `war_reminder_job`
(bot.py lines 1206-1243): feature enabled, war fetch succeeded, war state
`inWar`, end time parses, remaining time strictly positive and at most the
reminder window, and at least one member with zero attacks used.  The tick
reaches the per-group loop exactly when this holds. -/
def war_reminder_fires (enabled : Bool) (fetchResult : Option WarPayload)
    (now windowHours : Int) : Bool :=
  enabled &&
  (match fetchResult with
   | none => false
   | some payload =>
       (payload.state = some "inWar") &&
       (match parse_coc_time payload.endTime with
        | none => false
        | some endTime =>
            (0 < endTime - now) && (endTime - now ≤ windowHours * hourMicros)) &&
       !(tags_missing_attacks payload.clanMembers).isEmpty)

/-- `war_reminder_job` (bot.py lines 1205-1303).  `fetchResult = none`
models the backend fetch raising (`HTTPStatusError` / `RequestError`), which
aborts the tick.  All early returns leave the cooldown table untouched and
send nothing. -/
def war_reminder_job (enabled : Bool) (fetchResult : Option WarPayload) (now : Int)
    (windowHours : Int) (bindings : BindingsTable) (cooldowns : CooldownTable)
    (sendOk : Int → Bool) : TickResult :=
  let noop : TickResult := ⟨cooldowns, [], []⟩
  if !enabled then noop
  else
    match fetchResult with
    | none => noop
    | some payload =>
        if payload.state ≠ some "inWar" then noop
        else
          match parse_coc_time payload.endTime with
          | none => noop
          | some endTime =>
              let timeToEnd := endTime - now
              if timeToEnd ≤ 0 then noop
              else if timeToEnd > windowHours * hourMicros then noop
              else
                let tags := tags_missing_attacks payload.clanMembers
                if tags.isEmpty then noop
                else process_groups bindings tags now sendOk (get_group_ids bindings) cooldowns

/-! ## Helper lemmas -/

theorem pyTruthyObj_of_ne_nil {v : JsonObj} (h : v ≠ []) : pyTruthyObj v = true := by
  cases v with
  | nil => exact absurd rfl h
  | cons a l => rfl

theorem fetch_with_cache_of_miss {cache : CacheState} {ttl : Int}
    {upstream : UpstreamOutcome} {key : String}
    (h : get_cached_json cache key = none) :
    fetch_with_cache cache ttl upstream key = fetch_upstream cache ttl upstream key := by
  unfold fetch_with_cache
  rw [h]

theorem fetch_upstream_response (cache : CacheState) (ttl : Int) (status : Int)
    (body : JsonObj) (key : String) :
    fetch_upstream cache ttl (.response status body) key =
      (if status = 401 then ⟨.err .unauthorized, cache, 1⟩
       else if status = 403 then ⟨.err .forbidden, cache, 1⟩
       else if status = 429 then ⟨.err .rateLimited, cache, 1⟩
       else if status = 404 then ⟨.err .notFound, cache, 1⟩
       else if status ≥ 400 then ⟨.err .upstreamError, cache, 1⟩
       else ⟨.ok body, set_cached_json cache key body ttl, 1⟩ : FetchResult) := rfl

theorem bindingKeyIs_iff {g u : Int} {b : Binding} :
    bindingKeyIs g u b = true ↔ b.group_id = g ∧ b.telegram_user_id = u := by
  simp [bindingKeyIs]

theorem get_binding_upsert_self (t : BindingsTable) (b : Binding) :
    get_binding (upsert_binding t b) b.group_id b.telegram_user_id = some b := by
  have hb : bindingKeyIs b.group_id b.telegram_user_id b = true :=
    bindingKeyIs_iff.mpr ⟨rfl, rfl⟩
  induction t with
  | nil => simp [upsert_binding, get_binding, hb]
  | cons r rest ih =>
      rw [upsert_binding]
      by_cases h : bindingKeyIs b.group_id b.telegram_user_id r = true
      · rw [if_pos h]
        simp [get_binding, List.find?_cons, hb]
      · rw [if_neg h]
        rw [get_binding, List.find?_cons]
        have h' : bindingKeyIs b.group_id b.telegram_user_id r = false := by
          simpa using h
        rw [h']
        exact ih

theorem countP_upsert_of_ne (t : BindingsTable) (b : Binding) (g u : Int)
    (hb : bindingKeyIs g u b = false) :
    (upsert_binding t b).countP (bindingKeyIs g u) = t.countP (bindingKeyIs g u) := by
  induction t with
  | nil => simp [upsert_binding, List.countP_cons, hb]
  | cons r rest ih =>
      rw [upsert_binding]
      by_cases h : bindingKeyIs b.group_id b.telegram_user_id r = true
      · rw [if_pos h]
        have hr : bindingKeyIs g u r = false := by
          rcases bindingKeyIs_iff.mp h with ⟨h1, h2⟩
          simp only [bindingKeyIs, Bool.and_eq_false_iff, decide_eq_false_iff_not] at hb ⊢
          rcases hb with hb | hb
          · exact Or.inl (h1 ▸ hb)
          · exact Or.inr (h2 ▸ hb)
        simp [List.countP_cons, hb, hr]
      · rw [if_neg h]
        simp [List.countP_cons, ih]

theorem countP_upsert_self_le_one (t : BindingsTable) (b : Binding)
    (h : t.countP (bindingKeyIs b.group_id b.telegram_user_id) ≤ 1) :
    (upsert_binding t b).countP (bindingKeyIs b.group_id b.telegram_user_id) ≤ 1 := by
  have hb : bindingKeyIs b.group_id b.telegram_user_id b = true :=
    bindingKeyIs_iff.mpr ⟨rfl, rfl⟩
  induction t with
  | nil => simp [upsert_binding, List.countP_cons, hb]
  | cons r rest ih =>
      rw [List.countP_cons] at h
      rw [upsert_binding]
      by_cases hk : bindingKeyIs b.group_id b.telegram_user_id r = true
      · rw [if_pos hk, List.countP_cons, hb]
        rw [hk] at h
        simp only [if_true] at h ⊢
        omega
      · rw [if_neg hk, List.countP_cons]
        have hk' : bindingKeyIs b.group_id b.telegram_user_id r = false := by simpa using hk
        rw [hk'] at h ⊢
        simp only [Bool.false_eq_true, if_false] at h ⊢
        exact ih (by omega)

theorem countP_upsert_le_one (t : BindingsTable) (b : Binding) (g u : Int)
    (h : t.countP (bindingKeyIs g u) ≤ 1) :
    (upsert_binding t b).countP (bindingKeyIs g u) ≤ 1 := by
  by_cases hb : bindingKeyIs g u b = true
  · rcases bindingKeyIs_iff.mp hb with ⟨h1, h2⟩
    subst h1
    subst h2
    exact countP_upsert_self_le_one t b h
  · have hb' : bindingKeyIs g u b = false := by simpa using hb
    rw [countP_upsert_of_ne t b g u hb']
    exact h

theorem upsert_length_of_key_present (t : BindingsTable) (b : Binding)
    (h : (t.find? (bindingKeyIs b.group_id b.telegram_user_id)).isSome = true) :
    (upsert_binding t b).length = t.length := by
  induction t with
  | nil => simp at h
  | cons r rest ih =>
      rw [upsert_binding]
      by_cases hk : bindingKeyIs b.group_id b.telegram_user_id r = true
      · rw [if_pos hk]
        simp
      · rw [if_neg hk]
        rw [List.find?_cons] at h
        have hk' : bindingKeyIs b.group_id b.telegram_user_id r = false := by simpa using hk
        rw [hk'] at h
        simp only [List.length_cons, ih h]

theorem fdiv_hundred_eq_floor (t : Int) : Int.fdiv t 100 = ⌊(t : Rat) / 100⌋ := by
  rw [Int.fdiv_eq_ediv _ (by norm_num)]
  have h := Rat.floor_intCast_div_natCast t 100
  push_cast at h
  rw [h]
/-! ### Lemmas about normalize_tag -/

theorem asciiUpper_eq_space_iff (c : Char) : asciiUpper c = ' ' ↔ c = ' ' := by
  unfold asciiUpper
  split <;> simp_all

theorem pyIsSpace_asciiUpper (c : Char) : pyIsSpace (asciiUpper c) = pyIsSpace c := by
  unfold asciiUpper
  split <;> rfl

theorem tagChar_facts {c : Char} (h : isTagChar c = true) :
    c ≠ ' ' ∧ pyIsSpace c = false ∧ asciiUpper c = c ∧ c ≠ '#' := by
  simp only [isTagChar, Bool.or_eq_true, decide_eq_true_eq] at h
  rcases h with h|h|h|h|h|h|h|h|h|h|h|h|h|h <;> subst h <;> refine ⟨by decide, by decide, by decide, by decide⟩

theorem map_eq_self_of_fix {l : List Char} {f : Char → Char} (h : ∀ c ∈ l, f c = c) :
    l.map f = l := by
  induction l with
  | nil => rfl
  | cons a l ih =>
      rw [List.map_cons, h a (List.mem_cons_self a l), ih (fun c hc => h c (List.mem_cons_of_mem a hc))]

theorem dropWhile_eq_self_of_all_false {l : List Char} {p : Char → Bool}
    (h : ∀ c ∈ l, p c = false) : l.dropWhile p = l := by
  cases l with
  | nil => rfl
  | cons a l => rw [List.dropWhile_cons, h a (List.mem_cons_self a l)]; simp

theorem dropWhile_eq_nil_of_all_true {l : List Char} {p : Char → Bool}
    (h : ∀ c ∈ l, p c = true) : l.dropWhile p = [] := by
  induction l with
  | nil => rfl
  | cons a l ih =>
      rw [List.dropWhile_cons, h a (List.mem_cons_self a l)]
      simp only [if_true]
      exact ih (fun c hc => h c (List.mem_cons_of_mem a hc))

theorem dropWhile_append_of_all_true {l1 l2 : List Char} {p : Char → Bool}
    (h : ∀ c ∈ l1, p c = true) : (l1 ++ l2).dropWhile p = l2.dropWhile p := by
  rw [List.dropWhile_append, dropWhile_eq_nil_of_all_true h]
  rfl

theorem pyRStrip_cons (c : Char) (x : List Char) :
    pyRStrip (c :: x) =
      if pyIsSpace c = true ∧ pyRStrip x = [] then [] else c :: pyRStrip x := by
  unfold pyRStrip
  rw [List.reverse_cons, List.dropWhile_append]
  have hrev : (x.reverse.dropWhile pyIsSpace).reverse = [] ↔ x.reverse.dropWhile pyIsSpace = [] := by
    simp
  by_cases he : (x.reverse.dropWhile pyIsSpace).isEmpty = true
  · rw [if_pos he]
    have hnil : x.reverse.dropWhile pyIsSpace = [] := by simpa [List.isEmpty_iff] using he
    by_cases hc : pyIsSpace c = true
    · rw [List.dropWhile_cons, hc]
      simp [hnil, hrev, hc]
    · have hc' : pyIsSpace c = false := by simpa using hc
      rw [List.dropWhile_cons, hc']
      simp [hnil, hrev, hc']
  · rw [if_neg he]
    have hnnil : ¬ x.reverse.dropWhile pyIsSpace = [] := by
      simpa [List.isEmpty_iff] using he
    rw [if_neg (by simp [hrev, hnnil])]
    simp

theorem pyRStrip_cons_of_not_space {c : Char} (x : List Char) (hc : pyIsSpace c = false) :
    pyRStrip (c :: x) = c :: pyRStrip x := by
  rw [pyRStrip_cons]
  rw [if_neg (by simp [hc])]

theorem pyRStrip_append_ws {ws : List Char} (x : List Char)
    (h : ∀ c ∈ ws, pyIsSpace c = true) : pyRStrip (x ++ ws) = pyRStrip x := by
  unfold pyRStrip
  rw [List.reverse_append]
  rw [dropWhile_append_of_all_true (fun c hc => h c (List.mem_reverse.mp hc))]

theorem pyRStrip_of_all_ws {l : List Char} (h : ∀ c ∈ l, pyIsSpace c = true) :
    pyRStrip l = [] := by
  unfold pyRStrip
  rw [dropWhile_eq_nil_of_all_true (fun c hc => h c (List.mem_reverse.mp hc))]
  rfl

theorem pyLStrip_append_ws {ws : List Char} (x : List Char)
    (h : ∀ c ∈ ws, pyIsSpace c = true) : pyLStrip (ws ++ x) = pyLStrip x := by
  unfold pyLStrip
  exact dropWhile_append_of_all_true h

theorem pyStrip_ws_wrap {ws1 ws2 : List Char} (x : List Char)
    (h1 : ∀ c ∈ ws1, pyIsSpace c = true) (h2 : ∀ c ∈ ws2, pyIsSpace c = true) :
    pyStrip (ws1 ++ (x ++ ws2)) = pyStrip x := by
  unfold pyStrip
  rw [pyLStrip_append_ws _ h1]
  unfold pyLStrip
  rw [List.dropWhile_append]
  by_cases he : (x.dropWhile pyIsSpace).isEmpty = true
  · rw [if_pos he]
    have hnil : x.dropWhile pyIsSpace = [] := by simpa [List.isEmpty_iff] using he
    rw [hnil]
    rw [pyRStrip_of_all_ws (fun c hc => h2 c ((List.dropWhile_sublist _).mem hc))]
    rfl
  · rw [if_neg he]
    exact pyRStrip_append_ws _ h2

theorem pyIsSpace_comp_asciiUpper : pyIsSpace ∘ asciiUpper = pyIsSpace := by
  funext c
  exact pyIsSpace_asciiUpper c

theorem pyRemoveSpaces_upper (l : List Char) :
    pyRemoveSpaces (pyUpper l) = pyUpper (pyRemoveSpaces l) := by
  unfold pyRemoveSpaces pyUpper
  rw [List.filter_map]
  have hf : ((fun c => decide (c ≠ ' ')) ∘ asciiUpper) = (fun c => decide (c ≠ ' ')) := by
    funext c
    simp only [Function.comp]
    rw [decide_eq_decide]
    exact not_congr (asciiUpper_eq_space_iff c)
  rw [hf]

theorem pyLStrip_upper (l : List Char) : pyLStrip (pyUpper l) = pyUpper (pyLStrip l) := by
  unfold pyLStrip pyUpper
  rw [List.dropWhile_map, pyIsSpace_comp_asciiUpper]

theorem pyRStrip_upper (l : List Char) : pyRStrip (pyUpper l) = pyUpper (pyRStrip l) := by
  unfold pyRStrip pyUpper
  rw [← List.map_reverse, List.dropWhile_map, pyIsSpace_comp_asciiUpper, List.map_reverse]

theorem pyStrip_upper (l : List Char) : pyStrip (pyUpper l) = pyUpper (pyStrip l) := by
  unfold pyStrip
  rw [pyLStrip_upper, pyRStrip_upper]

theorem normalize_stripped_eq (t : List Char) :
    pyUpper (pyStrip (pyRemoveSpaces t)) = pyStrip (pyRemoveSpaces (pyUpper t)) := by
  rw [pyRemoveSpaces_upper, pyStrip_upper]

theorem normalize_tag_case_invariant (t u : List Char) (h : pyUpper t = pyUpper u) :
    normalize_tag t = normalize_tag u := by
  unfold normalize_tag
  rw [normalize_stripped_eq t, normalize_stripped_eq u, h]

theorem normalize_tag_ws_invariant (ws1 ws2 t : List Char)
    (h1 : ∀ c ∈ ws1, pyIsSpace c = true) (h2 : ∀ c ∈ ws2, pyIsSpace c = true) :
    normalize_tag (ws1 ++ t ++ ws2) = normalize_tag t := by
  unfold normalize_tag
  have hrm : pyRemoveSpaces (ws1 ++ t ++ ws2) =
      pyRemoveSpaces ws1 ++ (pyRemoveSpaces t ++ pyRemoveSpaces ws2) := by
    unfold pyRemoveSpaces
    rw [List.filter_append, List.filter_append, List.append_assoc]
  have hw1 : ∀ c ∈ pyRemoveSpaces ws1, pyIsSpace c = true := by
    intro c hc
    exact h1 c (List.mem_of_mem_filter hc)
  have hw2 : ∀ c ∈ pyRemoveSpaces ws2, pyIsSpace c = true := by
    intro c hc
    exact h2 c (List.mem_of_mem_filter hc)
  rw [hrm, pyStrip_ws_wrap _ hw1 hw2]

theorem normalize_tag_some_spec {t s : List Char} (h : normalize_tag t = some s) :
    s.head? = some '#' ∧
    (s.dropWhile (fun c => c = '#')).isEmpty = false ∧
    (s.dropWhile (fun c => c = '#')).all isTagChar = true := by
  simp only [normalize_tag] at h
  by_cases hh : (pyUpper (pyStrip (pyRemoveSpaces t))).head? = some '#'
  · rw [if_pos hh] at h
    split at h
    · exact absurd h (by simp)
    · next hcond =>
        have hs := Option.some.inj h
        subst hs
        simp only [not_or, Bool.not_eq_true, Bool.not_eq_false, not_not] at hcond
        exact ⟨hh, hcond.1, hcond.2⟩
  · rw [if_neg hh] at h
    split at h
    · exact absurd h (by simp)
    · next hcond =>
        have hs := Option.some.inj h
        subst hs
        simp only [not_or, Bool.not_eq_true, Bool.not_eq_false, not_not] at hcond
        exact ⟨rfl, hcond.1, hcond.2⟩

theorem normalize_tag_some_chars {t s : List Char} (h : normalize_tag t = some s) :
    ∀ c ∈ s, c = '#' ∨ isTagChar c = true := by
  obtain ⟨hh, hne, hall⟩ := normalize_tag_some_spec h
  intro c hc
  rw [← List.takeWhile_append_dropWhile (fun c => decide (c = '#')) s] at hc
  rcases List.mem_append.mp hc with hc | hc
  · left
    simpa using List.mem_takeWhile_imp hc
  · right
    exact List.all_eq_true.mp hall c hc

theorem normalize_tag_idem (t s : List Char) (h : normalize_tag t = some s) :
    normalize_tag s = some s := by
  obtain ⟨hh, hne, hall⟩ := normalize_tag_some_spec h
  have hchars := normalize_tag_some_chars h
  have hfacts : ∀ c ∈ s, c ≠ ' ' ∧ pyIsSpace c = false ∧ asciiUpper c = c := by
    intro c hc
    rcases hchars c hc with rfl | htag
    · exact ⟨by decide, by decide, by decide⟩
    · obtain ⟨f1, f2, f3, _⟩ := tagChar_facts htag
      exact ⟨f1, f2, f3⟩
  have hrm : pyRemoveSpaces s = s :=
    List.filter_eq_self.mpr (fun c hc => decide_eq_true (hfacts c hc).1)
  have hls : pyLStrip s = s := dropWhile_eq_self_of_all_false (fun c hc => (hfacts c hc).2.1)
  have hrs : pyRStrip s = s := by
    unfold pyRStrip
    rw [dropWhile_eq_self_of_all_false
      (fun c hc => (hfacts c (List.mem_reverse.mp hc)).2.1), List.reverse_reverse]
  have hup : pyUpper s = s := map_eq_self_of_fix (fun c hc => (hfacts c hc).2.2)
  have hstr : pyUpper (pyStrip (pyRemoveSpaces s)) = s := by
    rw [hrm]
    unfold pyStrip
    rw [hls, hrs, hup]
  simp only [normalize_tag]
  rw [hstr, if_pos hh, if_neg (by simp [hne, hall])]

theorem space_not_hash {d : Char} (h : pyIsSpace d = true) : d ≠ '#' := by
  simp only [pyIsSpace, Bool.or_eq_true, decide_eq_true_eq] at h
  rcases h with h|h|h|h|h|h <;> subst h <;> decide

theorem pyRemoveSpaces_cons_hash (t : List Char) :
    pyRemoveSpaces ('#' :: t) = '#' :: pyRemoveSpaces t := by
  unfold pyRemoveSpaces
  rw [List.filter_cons]
  simp

theorem pyStrip_cons_hash (x : List Char) :
    pyStrip ('#' :: x) = '#' :: pyRStrip x := by
  unfold pyStrip pyLStrip
  rw [List.dropWhile_cons]
  rw [if_neg (by decide)]
  exact pyRStrip_cons_of_not_space x (by decide)

theorem normalize_tag_hash_invariant (t : List Char)
    (hsome : (normalize_tag ('#' :: t)).isSome = true)
    (hhead : (pyUpper (pyStrip (pyRemoveSpaces t))).head? ≠ some '#') :
    normalize_tag ('#' :: t) = normalize_tag t := by
  have hstr1 : pyUpper (pyStrip (pyRemoveSpaces ('#' :: t))) =
      '#' :: pyUpper (pyRStrip (pyRemoveSpaces t)) := by
    rw [pyRemoveSpaces_cons_hash, pyStrip_cons_hash]
    unfold pyUpper
    rw [List.map_cons]
    rw [show asciiUpper '#' = '#' from by decide]
  have hraw1 : (('#' : Char) :: pyUpper (pyRStrip (pyRemoveSpaces t))).dropWhile
        (fun c => c = '#') =
      (pyUpper (pyRStrip (pyRemoveSpaces t))).dropWhile (fun c => c = '#') := by
    rw [List.dropWhile_cons]
    simp
  have hcomp1 : normalize_tag ('#' :: t) =
      if ((pyUpper (pyRStrip (pyRemoveSpaces t))).dropWhile (fun c => c = '#')).isEmpty = true ∨
         ¬ ((pyUpper (pyRStrip (pyRemoveSpaces t))).dropWhile (fun c => c = '#')).all isTagChar = true
      then none else some ('#' :: pyUpper (pyRStrip (pyRemoveSpaces t))) := by
    simp only [normalize_tag, hstr1, List.head?_cons, Option.some.injEq, if_true]
    rw [hraw1]
  rw [hcomp1] at hsome
  by_cases hc : ((pyUpper (pyRStrip (pyRemoveSpaces t))).dropWhile (fun c => c = '#')).isEmpty = true ∨
      ¬ ((pyUpper (pyRStrip (pyRemoveSpaces t))).dropWhile (fun c => c = '#')).all isTagChar = true
  · rw [if_pos hc] at hsome
    exact absurd hsome (by simp)
  have hcc := hc
  simp only [not_or, Bool.not_eq_true, Bool.not_eq_false, not_not] at hcc
  obtain ⟨hne, hall⟩ := hcc
  have hlstrip : pyLStrip (pyRemoveSpaces t) = pyRemoveSpaces t := by
    cases hrmt : pyRemoveSpaces t with
    | nil => rfl
    | cons c x =>
        unfold pyLStrip
        rw [List.dropWhile_cons]
        by_cases hws : pyIsSpace c = true
        · exfalso
          by_cases hnil : pyRStrip x = []
          · have hu : pyRStrip (c :: x) = [] := by
              rw [pyRStrip_cons, if_pos ⟨hws, hnil⟩]
            rw [← hrmt] at hu
            rw [hu] at hne
            simp [pyUpper] at hne
          · have hu : pyRStrip (c :: x) = c :: pyRStrip x := by
              rw [pyRStrip_cons, if_neg (by simp [hnil])]
            rw [← hrmt] at hu
            rw [hu] at hne hall
            have hdws : pyIsSpace (asciiUpper c) = true := by
              rw [pyIsSpace_asciiUpper]
              exact hws
            have hdnh : ¬ (asciiUpper c = '#') := space_not_hash hdws
            rw [pyUpper, List.map_cons, List.dropWhile_cons,
              if_neg (by simpa using hdnh)] at hall
            rw [List.all_cons, Bool.and_eq_true] at hall
            obtain ⟨f1, f2, _, _⟩ := tagChar_facts hall.1
            rw [hdws] at f2
            exact absurd f2 (by simp)
        · rw [if_neg hws]
  have hstr2 : pyUpper (pyStrip (pyRemoveSpaces t)) =
      pyUpper (pyRStrip (pyRemoveSpaces t)) := by
    unfold pyStrip
    rw [hlstrip]
  have hhead2 : (pyUpper (pyRStrip (pyRemoveSpaces t))).head? ≠ some '#' := by
    rw [← hstr2]
    exact hhead
  have hcomp2 : normalize_tag t =
      if ((pyUpper (pyRStrip (pyRemoveSpaces t))).dropWhile (fun c => c = '#')).isEmpty = true ∨
         ¬ ((pyUpper (pyRStrip (pyRemoveSpaces t))).dropWhile (fun c => c = '#')).all isTagChar = true
      then none else some ('#' :: pyUpper (pyRStrip (pyRemoveSpaces t))) := by
    simp only [normalize_tag, hstr2]
    rw [if_neg hhead2, hraw1]
  rw [hcomp1, hcomp2]

/-! ### Lemmas about the cooldown store and the reminder loop -/

theorem cd_lookup_upsert_self (cd : CooldownTable) (g u ts : Int) :
    cd_lookup (cd_upsert cd g u ts) g u = some ts := by
  induction cd with
  | nil => simp [cd_upsert, cd_lookup]
  | cons r rest ih =>
      rw [cd_upsert]
      by_cases h : r.1 = g ∧ r.2.1 = u
      · rw [if_pos h]
        simp [cd_lookup, List.find?_cons]
      · rw [if_neg h]
        unfold cd_lookup at ih ⊢
        rw [List.find?_cons, decide_eq_false h]
        exact ih

theorem cd_lookup_upsert_ne (cd : CooldownTable) (g u ts g2 u2 : Int)
    (h : ¬ (g2 = g ∧ u2 = u)) :
    cd_lookup (cd_upsert cd g u ts) g2 u2 = cd_lookup cd g2 u2 := by
  have h' : ¬ (g = g2 ∧ u = u2) := fun hc => h ⟨hc.1.symm, hc.2.symm⟩
  induction cd with
  | nil =>
      rcases not_and_or.mp h' with hx | hx <;>
        simp [cd_upsert, cd_lookup, List.find?_cons, hx]
  | cons r rest ih =>
      rw [cd_upsert]
      by_cases hk : r.1 = g ∧ r.2.1 = u
      · rw [if_pos hk]
        have hr : ¬ (r.1 = g2 ∧ r.2.1 = u2) := by
          intro hc
          exact h ⟨hc.1 ▸ hk.1 ▸ rfl, hc.2 ▸ hk.2 ▸ rfl⟩
        unfold cd_lookup
        rw [List.find?_cons, List.find?_cons, decide_eq_false h', decide_eq_false hr]
      · rw [if_neg hk]
        unfold cd_lookup at ih ⊢
        rw [List.find?_cons, List.find?_cons]
        cases hfind : decide (r.1 = g2 ∧ r.2.1 = u2) with
        | true => rfl
        | false => exact ih

theorem cd_lookup_set_cooldowns (us : List Int) (cd : CooldownTable) (g g2 u2 ts : Int) :
    cd_lookup (set_cooldowns cd g us ts) g2 u2 =
      if g2 = g ∧ u2 ∈ us then some ts else cd_lookup cd g2 u2 := by
  induction us generalizing cd with
  | nil => simp [set_cooldowns]
  | cons x xs ih =>
      unfold set_cooldowns at ih ⊢
      rw [List.foldl_cons]
      rw [ih (cd_upsert cd g x ts)]
      by_cases hg : g2 = g
      · subst hg
        by_cases hx : u2 ∈ xs
        · rw [if_pos ⟨rfl, hx⟩, if_pos ⟨rfl, List.mem_cons_of_mem x hx⟩]
        · rw [if_neg (by simp [hx])]
          by_cases hu : u2 = x
          · subst hu
            rw [if_pos ⟨rfl, List.mem_cons_self u2 xs⟩]
            exact cd_lookup_upsert_self cd g2 u2 ts
          · rw [if_neg (by simp [hu, hx])]
            exact cd_lookup_upsert_ne cd g2 x ts g2 u2 (by simp [hu])
      · rw [if_neg (by simp [hg]), if_neg (by simp [hg])]
        exact cd_lookup_upsert_ne cd g x ts g2 u2 (by simp [hg])

theorem war_reminder_job_eq (enabled : Bool) (fetchResult : Option WarPayload)
    (now windowHours : Int) (bindings : BindingsTable) (cooldowns : CooldownTable)
    (sendOk : Int → Bool) :
    war_reminder_job enabled fetchResult now windowHours bindings cooldowns sendOk =
      if war_reminder_fires enabled fetchResult now windowHours = true then
        process_groups bindings
          (tags_missing_attacks ((fetchResult.getD ⟨none, none, []⟩).clanMembers))
          now sendOk (get_group_ids bindings) cooldowns
      else ⟨cooldowns, [], []⟩ := by
  unfold war_reminder_job war_reminder_fires
  cases hen : enabled with
  | false => simp
  | true =>
    cases fetchResult with
    | none => simp
    | some payload =>
      simp only [Bool.not_true, Bool.false_eq_true, if_false, Option.getD_some, Bool.true_and]
      by_cases hst : payload.state = some "inWar"
      · rw [if_neg (by simp [hst])]
        cases hp : parse_coc_time payload.endTime with
        | none => simp [hst]
        | some endTime =>
          dsimp only
          by_cases h1 : endTime - now ≤ 0
          · rw [if_pos h1]
            have : ¬ (0 < endTime - now) := by omega
            simp [hst, this]
          · rw [if_neg h1]
            by_cases h2 : endTime - now > windowHours * hourMicros
            · rw [if_pos h2]
              have : ¬ (endTime - now ≤ windowHours * hourMicros) := by omega
              simp [hst, this]
            · rw [if_neg h2]
              have hpos : (0 : Int) < endTime - now := by omega
              have hle : endTime - now ≤ windowHours * hourMicros := by omega
              by_cases htags : (tags_missing_attacks payload.clanMembers).isEmpty = true
              · rw [if_pos htags]
                simp [hst, hpos, hle, htags]
              · rw [if_neg htags]
                have htags' : (tags_missing_attacks payload.clanMembers).isEmpty = false := by
                  simpa using htags
                simp [hst, hpos, hle, htags']
      · rw [if_pos hst]
        simp [hst]

theorem group_due_congr (bindings : BindingsTable) (tags : List String)
    (cd cd2 : CooldownTable) (now g : Int)
    (h : ∀ u, cd_lookup cd g u = cd_lookup cd2 g u) :
    group_due bindings tags cd now g = group_due bindings tags cd2 now g := by
  unfold group_due
  by_cases hbs : (get_bindings_for_tags bindings g tags).isEmpty = true
  · rw [if_pos hbs, if_pos hbs]
  · rw [if_neg hbs, if_neg hbs]
    dsimp only
    unfold group_recipients
    congr 1
    apply List.filter_congr
    intro b _
    unfold get_cooldowns
    rw [h b.telegram_user_id]

theorem process_groups_frame (bindings : BindingsTable) (tags : List String)
    (now : Int) (sendOk : Int → Bool) (h u : Int) :
    ∀ (gs : List Int) (cd : CooldownTable), h ∉ gs →
      cd_lookup (process_groups bindings tags now sendOk gs cd).cooldowns h u =
        cd_lookup cd h u := by
  intro gs
  induction gs with
  | nil => intro cd _; rfl
  | cons g rest ih =>
      intro cd hmem
      have hg : h ≠ g := fun e => hmem (e ▸ List.mem_cons_self g rest)
      have hrest : h ∉ rest := fun e => hmem (List.mem_cons_of_mem g e)
      simp only [process_groups]
      by_cases hdue : (group_due bindings tags cd now g).isEmpty = true
      · rw [if_pos hdue]
        exact ih cd hrest
      · rw [if_neg hdue]
        by_cases hsend : sendOk g = true
        · rw [if_pos hsend]
          dsimp only
          rw [ih _ hrest, cd_lookup_set_cooldowns]
          rw [if_neg (by simp [hg])]
        · rw [if_neg hsend]
          dsimp only
          exact ih cd hrest

theorem process_groups_no_write_on_fail (bindings : BindingsTable) (tags : List String)
    (now : Int) (sendOk : Int → Bool) (g u : Int) (hfail : sendOk g = false) :
    ∀ (gs : List Int) (cd : CooldownTable),
      cd_lookup (process_groups bindings tags now sendOk gs cd).cooldowns g u =
        cd_lookup cd g u := by
  intro gs
  induction gs with
  | nil => intro cd; rfl
  | cons g1 rest ih =>
      intro cd
      simp only [process_groups]
      by_cases hdue : (group_due bindings tags cd now g1).isEmpty = true
      · rw [if_pos hdue]
        exact ih cd
      · rw [if_neg hdue]
        by_cases hsend : sendOk g1 = true
        · rw [if_pos hsend]
          dsimp only
          have hne : g ≠ g1 := by
            intro e
            rw [e, hsend] at hfail
            exact absurd hfail (by simp)
          rw [ih _, cd_lookup_set_cooldowns]
          rw [if_neg (by simp [hne])]
        · rw [if_neg hsend]
          dsimp only
          exact ih cd

theorem process_groups_sent_sub (bindings : BindingsTable) (tags : List String)
    (now : Int) (sendOk : Int → Bool) (g : Int) :
    ∀ (gs : List Int) (cd : CooldownTable),
      g ∈ (process_groups bindings tags now sendOk gs cd).sent →
      g ∈ (process_groups bindings tags now sendOk gs cd).attempts.map Prod.fst := by
  intro gs
  induction gs with
  | nil => intro cd h; exact absurd h (by simp [process_groups])
  | cons g1 rest ih =>
      intro cd
      simp only [process_groups]
      by_cases hdue : (group_due bindings tags cd now g1).isEmpty = true
      · rw [if_pos hdue]
        exact ih cd
      · rw [if_neg hdue]
        by_cases hsend : sendOk g1 = true
        · rw [if_pos hsend]
          dsimp only
          intro hmem
          rcases List.mem_cons.mp hmem with rfl | hmem
          · exact List.mem_cons_self _ _
          · exact List.mem_cons_of_mem _ (ih _ hmem)
        · rw [if_neg hsend]
          dsimp only
          intro hmem
          exact List.mem_cons_of_mem _ (ih _ hmem)

theorem process_groups_attempts_spec (bindings : BindingsTable) (tags : List String)
    (now : Int) (sendOk : Int → Bool) (cd0 : CooldownTable) :
    ∀ (gs : List Int), gs.Nodup → ∀ (cd : CooldownTable),
      (∀ h ∈ gs, ∀ u, cd_lookup cd h u = cd_lookup cd0 h u) →
      ∀ g us, (g, us) ∈ (process_groups bindings tags now sendOk gs cd).attempts →
        us = group_due bindings tags cd0 now g ∧ us.isEmpty = false := by
  intro gs
  induction gs with
  | nil => intro _ cd _ g us hmem; exact absurd hmem (by simp [process_groups])
  | cons g1 rest ih =>
      intro hnd cd hagree g us hmem
      obtain ⟨hg1, hndr⟩ := List.nodup_cons.mp hnd
      simp only [process_groups] at hmem
      by_cases hdue : (group_due bindings tags cd now g1).isEmpty = true
      · rw [if_pos hdue] at hmem
        exact ih hndr cd (fun h hh u => hagree h (List.mem_cons_of_mem g1 hh) u) g us hmem
      · rw [if_neg hdue] at hmem
        have hdcongr : group_due bindings tags cd now g1 = group_due bindings tags cd0 now g1 :=
          group_due_congr bindings tags cd cd0 now g1
            (hagree g1 (List.mem_cons_self g1 rest))
        by_cases hsend : sendOk g1 = true
        · rw [if_pos hsend] at hmem
          dsimp only at hmem
          rcases List.mem_cons.mp hmem with heq | hmem
          · obtain ⟨rfl, rfl⟩ := Prod.mk.injEq .. ▸ heq
            refine ⟨hdcongr.symm ▸ rfl, by simpa using hdue⟩
          · refine ih hndr _ ?_ g us hmem
            intro h hh u
            rw [cd_lookup_set_cooldowns]
            rw [if_neg (by
              intro hc
              exact hg1 (hc.1 ▸ hh))]
            exact hagree h (List.mem_cons_of_mem g1 hh) u
        · rw [if_neg hsend] at hmem
          dsimp only at hmem
          rcases List.mem_cons.mp hmem with heq | hmem
          · obtain ⟨rfl, rfl⟩ := Prod.mk.injEq .. ▸ heq
            refine ⟨hdcongr.symm ▸ rfl, by simpa using hdue⟩
          · exact ih hndr cd (fun h hh u => hagree h (List.mem_cons_of_mem g1 hh) u) g us hmem

theorem process_groups_send_indep (bindings : BindingsTable) (tags : List String)
    (now : Int) (sendOk : Int → Bool) (g : Int) :
    ∀ (gs : List Int), gs.Nodup → ∀ (cd1 cd2 : CooldownTable),
      (∀ h u, h ≠ g → cd_lookup cd1 h u = cd_lookup cd2 h u) →
      (g ∈ gs → ∀ u, cd_lookup cd1 g u = cd_lookup cd2 g u) →
      (process_groups bindings tags now sendOk gs cd1).attempts =
        (process_groups bindings tags now (fun h => if h = g then true else sendOk h) gs cd2).attempts ∧
      ∀ h u, h ≠ g →
        cd_lookup (process_groups bindings tags now sendOk gs cd1).cooldowns h u =
        cd_lookup (process_groups bindings tags now
          (fun h => if h = g then true else sendOk h) gs cd2).cooldowns h u := by
  intro gs
  induction gs with
  | nil =>
      intro _ cd1 cd2 hne _
      exact ⟨rfl, fun h u hh => hne h u hh⟩
  | cons g1 rest ih =>
      intro hnd cd1 cd2 hne hg
      obtain ⟨hg1, hndr⟩ := List.nodup_cons.mp hnd
      have hdue : group_due bindings tags cd1 now g1 = group_due bindings tags cd2 now g1 := by
        by_cases hgg : g1 = g
        · subst hgg
          exact group_due_congr bindings tags cd1 cd2 now g1
            (hg (List.mem_cons_self g1 rest))
        · exact group_due_congr bindings tags cd1 cd2 now g1
            (fun u => hne g1 u hgg)
      simp only [process_groups]
      rw [← hdue]
      by_cases hd : (group_due bindings tags cd1 now g1).isEmpty = true
      · rw [if_pos hd, if_pos hd]
        exact ih hndr cd1 cd2 hne (fun hm u => hg (List.mem_cons_of_mem g1 hm) u)
      · rw [if_neg hd, if_neg hd]
        by_cases hgg : g1 = g
        · subst hgg
          rw [if_pos (show (if g1 = g1 then true else sendOk g1) = true from by rw [if_pos rfl])]
          have hgrest : g1 ∉ rest := hg1
          by_cases hsend : sendOk g1 = true
          · rw [if_pos hsend]
            dsimp only
            have hih := ih hndr (set_cooldowns cd1 g1 (group_due bindings tags cd1 now g1) now)
              (set_cooldowns cd2 g1 (group_due bindings tags cd1 now g1) now)
              (fun h u hh => by
                rw [cd_lookup_set_cooldowns, cd_lookup_set_cooldowns]
                by_cases hin : h = g1 ∧ u ∈ group_due bindings tags cd1 now g1
                · rw [if_pos hin, if_pos hin]
                · rw [if_neg hin, if_neg hin]
                  exact hne h u hh)
              (fun hm => absurd hm hgrest)
            refine ⟨by rw [hih.1], ?_⟩
            intro h u hh
            exact hih.2 h u hh
          · rw [if_neg hsend]
            dsimp only
            have hih := ih hndr cd1
              (set_cooldowns cd2 g1 (group_due bindings tags cd1 now g1) now)
              (fun h u hh => by
                rw [cd_lookup_set_cooldowns]
                rw [if_neg (by intro hc; exact hh hc.1)]
                exact hne h u hh)
              (fun hm => absurd hm hgrest)
            refine ⟨by rw [hih.1], ?_⟩
            intro h u hh
            exact hih.2 h u hh
        · rw [if_neg hgg]
          by_cases hsend : sendOk g1 = true
          · rw [if_pos hsend, if_pos hsend]
            dsimp only
            have hih := ih hndr (set_cooldowns cd1 g1 (group_due bindings tags cd1 now g1) now)
              (set_cooldowns cd2 g1 (group_due bindings tags cd1 now g1) now)
              (fun h u hh => by
                rw [cd_lookup_set_cooldowns, cd_lookup_set_cooldowns]
                by_cases hin : h = g1 ∧ u ∈ group_due bindings tags cd1 now g1
                · rw [if_pos hin, if_pos hin]
                · rw [if_neg hin, if_neg hin]
                  exact hne h u hh)
              (fun hm u => by
                rw [cd_lookup_set_cooldowns, cd_lookup_set_cooldowns]
                have hgne : ¬ (g = g1 ∧ u ∈ group_due bindings tags cd1 now g1) := by
                  intro hc
                  exact hgg hc.1.symm
                rw [if_neg hgne, if_neg hgne]
                exact hg (List.mem_cons_of_mem g1 hm) u)
            refine ⟨by rw [hih.1], fun h u hh => hih.2 h u hh⟩
          · rw [if_neg hsend, if_neg hsend]
            dsimp only
            have hih := ih hndr cd1 cd2 hne (fun hm u => hg (List.mem_cons_of_mem g1 hm) u)
            refine ⟨by rw [hih.1], fun h u hh => hih.2 h u hh⟩

theorem get_group_ids_nodup (t : BindingsTable) : (get_group_ids t).Nodup :=
  List.nodup_dedup _

/-! ## Claims -/

/-- C1, counterexample: the claim "for every cache key K that has a stored
entry with remaining TTL, fetchWithCache returns the stored value and
performs zero upstream HTTP calls (and therefore does not modify the
cache)" fails when the stored document is the empty JSON object: the
`if cached:` truthiness test treats it as a miss, so one upstream call is
made, the cache entry is overwritten, and the upstream body (not the stored
value) is returned. -/
theorem fetch_with_cache_cached_empty_claim_false :
    get_cached_json [("k", ([] : JsonObj))] "k" = some [] ∧
    (fetch_with_cache [("k", ([] : JsonObj))] 300 (.response 200 [("a", .n 1)]) "k").upstreamCalls ≠ 0 ∧
    (fetch_with_cache [("k", ([] : JsonObj))] 300 (.response 200 [("a", .n 1)]) "k").cache ≠
      [("k", ([] : JsonObj))] ∧
    (fetch_with_cache [("k", ([] : JsonObj))] 300 (.response 200 [("a", .n 1)]) "k").result ≠
      .ok [] := by
  refine ⟨rfl, ?_, ?_, ?_⟩ <;> decide

/-- C1 (amended): for every cache key that has a stored entry with remaining
TTL *whose value is a non-empty JSON object*, `fetch_with_cache` returns the
stored value, performs zero upstream HTTP calls, and leaves the cache
unchanged. -/
theorem fetch_with_cache_hit_no_upstream (cache : CacheState) (ttl : Int)
    (upstream : UpstreamOutcome) (key : String) (v : JsonObj)
    (hv : get_cached_json cache key = some v) (hne : v ≠ []) :
    fetch_with_cache cache ttl upstream key = ⟨.ok v, cache, 0⟩ := by
  unfold fetch_with_cache
  rw [hv]
  simp only [pyTruthyObj_of_ne_nil hne, if_true]

theorem fetch_with_cache_hit_no_upstream_witness :
    fetch_with_cache [("k", [("a", JVal.n 1)])] 300 .timeout "k" =
      ⟨.ok [("a", JVal.n 1)], [("k", [("a", JVal.n 1)])], 0⟩ :=
  fetch_with_cache_hit_no_upstream _ 300 .timeout "k" _ (by decide) (by decide)

/-- C6, counterexample: the parenthetical "only a 2xx response writes to the
cache" is false — `fetch_with_cache` raises only for status ≥ 400, so any
response with status below 400 (here 399) parses the body and writes it to
the cache even though it is not a 2xx. -/
theorem fetch_with_cache_non_2xx_writes_cache :
    ¬ (200 ≤ 399 ∧ 399 ≤ 299) ∧
    fetch_with_cache [] 300 (.response 399 [("a", .n 1)]) "k" =
      ⟨.ok [("a", .n 1)], [("k", [("a", .n 1)])], 1⟩ := by
  refine ⟨by omega, ?_⟩
  decide

/-- C6 (amended): on a cache miss, the upstream HTTP status is mapped to the
typed taxonomy — 401 to Unauthorized, 403 to Forbidden, 429 to RateLimited,
404 to NotFound, any other status ≥ 400 to the catch-all upstream error —
and on every such error the cache is left unpopulated; a response with any
status below 400 (rather than only 2xx) parses and writes to the cache. -/
theorem fetch_with_cache_error_taxonomy (cache : CacheState) (ttl : Int)
    (key : String) (status : Int) (body : JsonObj)
    (hmiss : get_cached_json cache key = none) :
    (status = 401 →
      fetch_with_cache cache ttl (.response status body) key = ⟨.err .unauthorized, cache, 1⟩) ∧
    (status = 403 →
      fetch_with_cache cache ttl (.response status body) key = ⟨.err .forbidden, cache, 1⟩) ∧
    (status = 429 →
      fetch_with_cache cache ttl (.response status body) key = ⟨.err .rateLimited, cache, 1⟩) ∧
    (status = 404 →
      fetch_with_cache cache ttl (.response status body) key = ⟨.err .notFound, cache, 1⟩) ∧
    (status ≥ 400 → status ≠ 401 → status ≠ 403 → status ≠ 429 → status ≠ 404 →
      fetch_with_cache cache ttl (.response status body) key = ⟨.err .upstreamError, cache, 1⟩) ∧
    (status ≥ 400 → (fetch_with_cache cache ttl (.response status body) key).cache = cache) ∧
    (status < 400 →
      fetch_with_cache cache ttl (.response status body) key =
        ⟨.ok body, set_cached_json cache key body ttl, 1⟩) := by
  rw [fetch_with_cache_of_miss hmiss, fetch_upstream_response]
  refine ⟨?_, ?_, ?_, ?_, ?_, ?_, ?_⟩
  · intro h; subst h; norm_num
  · intro h; subst h; norm_num
  · intro h; subst h; norm_num
  · intro h; subst h; norm_num
  · intro h h1 h2 h3 h4
    rw [if_neg h1, if_neg h2, if_neg h3, if_neg h4, if_pos h]
  · intro h
    by_cases h1 : status = 401
    · rw [if_pos h1]
    · rw [if_neg h1]
      by_cases h2 : status = 403
      · rw [if_pos h2]
      · rw [if_neg h2]
        by_cases h3 : status = 429
        · rw [if_pos h3]
        · rw [if_neg h3]
          by_cases h4 : status = 404
          · rw [if_pos h4]
          · rw [if_neg h4, if_pos h]
  · intro h
    rw [if_neg (by omega : ¬ status = 401), if_neg (by omega : ¬ status = 403),
        if_neg (by omega : ¬ status = 429), if_neg (by omega : ¬ status = 404),
        if_neg (by omega : ¬ status ≥ 400)]

theorem fetch_with_cache_error_taxonomy_witness :
    fetch_with_cache [] 300 (.response 429 [("a", JVal.n 1)]) "k" =
      ⟨.err .rateLimited, [], 1⟩ :=
  (fetch_with_cache_error_taxonomy [] 300 "k" 429 [("a", JVal.n 1)] rfl).2.2.1 rfl


theorem binding_upsert_roundtrip (t : BindingsTable) (b b2 : Binding) (g u : Int)
    (hg : b2.group_id = b.group_id) (hu : b2.telegram_user_id = b.telegram_user_id)
    (huniq : t.countP (bindingKeyIs g u) ≤ 1) :
    get_binding (upsert_binding t b) b.group_id b.telegram_user_id = some b ∧
    get_binding (upsert_binding (upsert_binding t b) b2) b.group_id b.telegram_user_id = some b2 ∧
    (upsert_binding (upsert_binding t b) b2).length = (upsert_binding t b).length ∧
    (upsert_binding t b).countP (bindingKeyIs g u) ≤ 1 := by
  refine ⟨get_binding_upsert_self t b, ?_, ?_, countP_upsert_le_one t b g u huniq⟩
  · have h2 := get_binding_upsert_self (upsert_binding t b) b2
    rw [hg, hu] at h2
    exact h2
  · apply upsert_length_of_key_present
    have h1 := get_binding_upsert_self t b
    rw [get_binding] at h1
    rw [hg, hu, h1]
    rfl

theorem binding_upsert_roundtrip_witness :
    get_binding (upsert_binding [] (⟨42, 7, "#2PP", none, "Alice", "2025-01-01"⟩ : Binding)) 7 42 =
      some ⟨42, 7, "#2PP", none, "Alice", "2025-01-01"⟩ ∧
    get_binding (upsert_binding (upsert_binding [] (⟨42, 7, "#2PP", none, "Alice", "2025-01-01"⟩ : Binding))
        (⟨42, 7, "#8QQ", none, "Alice", "2025-02-02"⟩ : Binding)) 7 42 =
      some ⟨42, 7, "#8QQ", none, "Alice", "2025-02-02"⟩ ∧
    (upsert_binding (upsert_binding [] (⟨42, 7, "#2PP", none, "Alice", "2025-01-01"⟩ : Binding))
        (⟨42, 7, "#8QQ", none, "Alice", "2025-02-02"⟩ : Binding)).length =
      (upsert_binding [] (⟨42, 7, "#2PP", none, "Alice", "2025-01-01"⟩ : Binding)).length ∧
    (upsert_binding [] (⟨42, 7, "#2PP", none, "Alice", "2025-01-01"⟩ : Binding)).countP
      (bindingKeyIs 7 42) ≤ 1 :=
  binding_upsert_roundtrip [] ⟨42, 7, "#2PP", none, "Alice", "2025-01-01"⟩
    ⟨42, 7, "#8QQ", none, "Alice", "2025-02-02"⟩ 7 42 rfl rfl (by decide)

theorem binding_upsert_replaces_created_at (t : BindingsTable) (b b2 : Binding)
    (hg : b2.group_id = b.group_id) (hu : b2.telegram_user_id = b.telegram_user_id) :
    (get_binding (upsert_binding (upsert_binding t b) b2) b.group_id b.telegram_user_id).map
      (fun r => r.created_at) = some b2.created_at := by
  have h2 := get_binding_upsert_self (upsert_binding t b) b2
  rw [hg, hu] at h2
  rw [h2]
  rfl

theorem binding_upsert_replaces_created_at_witness :
    (get_binding (upsert_binding (upsert_binding [] (⟨42, 7, "#2PP", none, "Alice", "2025-01-01"⟩ : Binding))
        (⟨42, 7, "#2PP", none, "Alice", "2025-06-30"⟩ : Binding)) 7 42).map
      (fun r => r.created_at) = some "2025-06-30" :=
  binding_upsert_replaces_created_at [] ⟨42, 7, "#2PP", none, "Alice", "2025-01-01"⟩
    ⟨42, 7, "#2PP", none, "Alice", "2025-06-30"⟩ rfl rfl

theorem next_war_scores (member : ClanMember) (pd : PlayerData) (lw : Option WarLogEntry) :
    ((analyze_member member (some pd) lw).combatReadiness =
        2 * (pd.heroes.map (fun h => h.level)).sum +
        (pd.heroEquipment.map (fun e => e.level)).sum +
        member.expLevel + (if member.warPreference = "in" then 50 else -50) +
        ⌊(member.trophies : Rat) / 100⌋ ∧
      (analyze_member member (some pd) lw).warReadiness =
        50 * ((analyze_member member (some pd) lw).lastWarStars : Rat) +
        (analyze_member member (some pd) lw).lastWarDestruction +
        ((analyze_member member (some pd) lw).combatReadiness : Rat) +
        (member.warStars : Rat) / 10 + (member.leagueId : Rat) / 1000) ∧
    (analyze_member ⟨"#T", "A", 15, 4200, 120, 80, 0, "in", 52000⟩
        (some ⟨[⟨20⟩, ⟨30⟩], [⟨100⟩, ⟨100⟩, ⟨100⟩]⟩)
        (some ⟨[⟨"#T", 3, [⟨45.5⟩]⟩]⟩)).combatReadiness = 862 ∧
    (analyze_member ⟨"#T", "A", 15, 4200, 120, 80, 0, "in", 52000⟩
        (some ⟨[⟨20⟩, ⟨30⟩], [⟨100⟩, ⟨100⟩, ⟨100⟩]⟩)
        (some ⟨[⟨"#T", 3, [⟨45.5⟩]⟩]⟩)).warReadiness = 1117.5 := by
  refine ⟨⟨?_, ?_⟩, ?_, ?_⟩
  · simp only [analyze_member, Option.getD]
    rw [← fdiv_hundred_eq_floor]
    ring
  · simp only [analyze_member, Option.getD]
    push_cast
    ring
  · decide
  · have h42 : Int.fdiv 4200 100 = 42 := by decide
    norm_num [analyze_member, lastWarPerf, List.foldl, h42]

theorem top_players_ranking (clan : ClanPayload) (limit : Nat) (a b : ClanMember)
    (hsub : List.Sublist [a, b] clan.memberList) (heq : a.trophies = b.trophies) :
    (get_clan_members clan limit).members = (sortByTrophiesDesc clan.memberList).take limit ∧
    (sortByTrophiesDesc clan.memberList).Sorted (fun x y => y.trophies ≤ x.trophies) ∧
    (sortByTrophiesDesc clan.memberList).Perm clan.memberList ∧
    List.Sublist [a, b] (sortByTrophiesDesc clan.memberList) ∧
    get_clan_members clan = get_clan_members clan 50 ∧
    top_players_route clan limit = get_clan_members clan (min limit 50) ∧
    min limit 50 ≤ 50 := by
  refine ⟨rfl, ?_, List.perm_insertionSort _ _, ?_, rfl, rfl, Nat.min_le_right _ _⟩
  · haveI h1 : IsTotal ClanMember (fun x y => y.trophies ≤ x.trophies) :=
      ⟨fun x y => le_total y.trophies x.trophies⟩
    haveI h2 : IsTrans ClanMember (fun x y => y.trophies ≤ x.trophies) :=
      ⟨fun x y z hxy hyz => le_trans hyz hxy⟩
    exact List.sorted_insertionSort _ _
  · exact List.pair_sublist_insertionSort heq.ge hsub

theorem top_players_ranking_witness :
    (get_clan_members (⟨none, none, [⟨"#A", "a", 1, 100, 1, 1, 1, "in", 1⟩,
        ⟨"#B", "b", 1, 100, 1, 1, 1, "in", 1⟩]⟩ : ClanPayload) 2).members =
      (sortByTrophiesDesc [⟨"#A", "a", 1, 100, 1, 1, 1, "in", 1⟩,
        ⟨"#B", "b", 1, 100, 1, 1, 1, "in", 1⟩]).take 2 ∧
    (sortByTrophiesDesc [(⟨"#A", "a", 1, 100, 1, 1, 1, "in", 1⟩ : ClanMember),
        ⟨"#B", "b", 1, 100, 1, 1, 1, "in", 1⟩]).Sorted (fun x y => y.trophies ≤ x.trophies) ∧
    (sortByTrophiesDesc [(⟨"#A", "a", 1, 100, 1, 1, 1, "in", 1⟩ : ClanMember),
        ⟨"#B", "b", 1, 100, 1, 1, 1, "in", 1⟩]).Perm [⟨"#A", "a", 1, 100, 1, 1, 1, "in", 1⟩,
        ⟨"#B", "b", 1, 100, 1, 1, 1, "in", 1⟩] ∧
    List.Sublist [(⟨"#A", "a", 1, 100, 1, 1, 1, "in", 1⟩ : ClanMember),
        ⟨"#B", "b", 1, 100, 1, 1, 1, "in", 1⟩]
      (sortByTrophiesDesc [⟨"#A", "a", 1, 100, 1, 1, 1, "in", 1⟩,
        ⟨"#B", "b", 1, 100, 1, 1, 1, "in", 1⟩]) ∧
    get_clan_members (⟨none, none, [⟨"#A", "a", 1, 100, 1, 1, 1, "in", 1⟩,
        ⟨"#B", "b", 1, 100, 1, 1, 1, "in", 1⟩]⟩ : ClanPayload) =
      get_clan_members ⟨none, none, [⟨"#A", "a", 1, 100, 1, 1, 1, "in", 1⟩,
        ⟨"#B", "b", 1, 100, 1, 1, 1, "in", 1⟩]⟩ 50 ∧
    top_players_route (⟨none, none, [⟨"#A", "a", 1, 100, 1, 1, 1, "in", 1⟩,
        ⟨"#B", "b", 1, 100, 1, 1, 1, "in", 1⟩]⟩ : ClanPayload) 2 =
      get_clan_members ⟨none, none, [⟨"#A", "a", 1, 100, 1, 1, 1, "in", 1⟩,
        ⟨"#B", "b", 1, 100, 1, 1, 1, "in", 1⟩]⟩ (min 2 50) ∧
    min 2 50 ≤ 50 :=
  top_players_ranking ⟨none, none, [⟨"#A", "a", 1, 100, 1, 1, 1, "in", 1⟩,
    ⟨"#B", "b", 1, 100, 1, 1, 1, "in", 1⟩]⟩ 2 ⟨"#A", "a", 1, 100, 1, 1, 1, "in", 1⟩
    ⟨"#B", "b", 1, 100, 1, 1, 1, "in", 1⟩ (List.Sublist.refl _) rfl

/-- C5, counterexample: the inputs `"#2PP"` and `"##2PP"` differ only by one
leading `#` and both are accepted, yet normalize returns them unchanged and
distinct — the code validates after stripping every leading `#` but returns
the string with all of them kept, so "differ only by leading '#'" does not
imply an identical canonical form. -/
theorem normalize_tag_extra_hash_claim_false :
    normalize_tag ['#', '2', 'P', 'P'] = some ['#', '2', 'P', 'P'] ∧
    normalize_tag ('#' :: ['#', '2', 'P', 'P']) = some ['#', '#', '2', 'P', 'P'] ∧
    normalize_tag ('#' :: ['#', '2', 'P', 'P']) ≠ normalize_tag ['#', '2', 'P', 'P'] := by
  refine ⟨by decide, by decide, by decide⟩

/-- C5 (amended): normalize yields identical results for inputs that differ
only by letter case, or only by surrounding whitespace, or by the presence
of a single leading `#` added to an input whose cleaned form does not
already begin with `#` (given the `#`-prefixed input is accepted); and for
every input on which normalize succeeds, its output normalizes to itself
(idempotence). -/
theorem normalize_tag_invariances :
    (∀ t u : List Char, pyUpper t = pyUpper u → normalize_tag t = normalize_tag u) ∧
    (∀ ws1 ws2 t : List Char, (∀ c ∈ ws1, pyIsSpace c = true) → (∀ c ∈ ws2, pyIsSpace c = true) →
        normalize_tag (ws1 ++ t ++ ws2) = normalize_tag t) ∧
    (∀ t : List Char, (normalize_tag ('#' :: t)).isSome = true →
        (pyUpper (pyStrip (pyRemoveSpaces t))).head? ≠ some '#' →
        normalize_tag ('#' :: t) = normalize_tag t) ∧
    (∀ t s : List Char, normalize_tag t = some s → normalize_tag s = some s) :=
  ⟨normalize_tag_case_invariant, normalize_tag_ws_invariant,
   normalize_tag_hash_invariant, normalize_tag_idem⟩

theorem normalize_tag_invariances_witness :
    normalize_tag ['2', 'p', 'p'] = normalize_tag ['2', 'P', 'P'] ∧
    normalize_tag ([' ', '\t'] ++ ['2', 'P', 'P'] ++ ['\n']) = normalize_tag ['2', 'P', 'P'] ∧
    normalize_tag ('#' :: ['2', 'P', 'P']) = normalize_tag ['2', 'P', 'P'] ∧
    normalize_tag ['#', '2', 'P', 'P'] = some ['#', '2', 'P', 'P'] :=
  ⟨normalize_tag_invariances.1 ['2', 'p', 'p'] ['2', 'P', 'P'] (by decide),
   normalize_tag_invariances.2.1 [' ', '\t'] ['\n'] ['2', 'P', 'P'] (by decide) (by decide),
   normalize_tag_invariances.2.2.1 ['2', 'P', 'P'] (by decide) (by decide),
   normalize_tag_invariances.2.2.2 ['2', 'P', 'P'] ['#', '2', 'P', 'P'] (by decide)⟩

/-- C2: in the reminder job, a user whose cooldown row for a group holds a
last-notified time T is not included in that group's reminder at any tick
strictly before T plus one hour (even if still missing an attack), and at
any tick at or after T plus one hour the cooldown no longer suppresses the
user: a binding for them passes the recipient filter. -/
theorem reminder_cooldown_suppression
    (enabled : Bool) (fetch : Option WarPayload) (now wh : Int) (bindings : BindingsTable)
    (cooldowns : CooldownTable) (sendOk : Int → Bool) (g u T : Int) (us : List Int)
    (hcd : cd_lookup cooldowns g u = some T) :
    ((g, us) ∈ (war_reminder_job enabled fetch now wh bindings cooldowns sendOk).attempts →
      now < T + hourMicros → u ∉ us) ∧
    (∀ (bs : List Binding) (b : Binding), b ∈ bs → b.telegram_user_id = u →
      now ≥ T + hourMicros →
      b ∈ group_recipients bs
          (get_cooldowns cooldowns g (bs.map (fun x => x.telegram_user_id))) now) := by
  constructor
  · intro hmem hlt hin
    rw [war_reminder_job_eq] at hmem
    by_cases hf : war_reminder_fires enabled fetch now wh = true
    · rw [if_pos hf] at hmem
      obtain ⟨hus, -⟩ := process_groups_attempts_spec bindings _ now sendOk cooldowns
        (get_group_ids bindings) (get_group_ids_nodup bindings) cooldowns
        (fun _ _ _ => rfl) g us hmem
      subst hus
      unfold group_due at hin
      by_cases hbs : (get_bindings_for_tags bindings g
          (tags_missing_attacks ((fetch.getD ⟨none, none, []⟩).clanMembers))).isEmpty = true
      · rw [if_pos hbs] at hin
        exact absurd hin (by simp)
      · rw [if_neg hbs] at hin
        dsimp only at hin
        obtain ⟨b, hbrec, hbuid⟩ := List.mem_map.mp hin
        obtain ⟨hbmem, hpred⟩ := List.mem_filter.mp hbrec
        unfold get_cooldowns at hpred
        rw [hbuid] at hpred
        rw [if_pos (List.elem_eq_true_of_mem (hbuid ▸ List.mem_map_of_mem _ hbmem)),
          hcd] at hpred
        dsimp only at hpred
        have hlt2 : (now - T < hourMicros) := by omega
        rw [decide_eq_true hlt2] at hpred
        exact absurd hpred (by simp)
    · rw [if_neg hf] at hmem
      exact absurd hmem (by simp)
  · intro bs b hb huid hge
    unfold group_recipients
    apply List.mem_filter.mpr
    refine ⟨hb, ?_⟩
    unfold get_cooldowns
    rw [huid]
    rw [if_pos (List.elem_eq_true_of_mem (huid ▸ List.mem_map_of_mem _ hb)), hcd]
    dsimp only
    have hge2 : ¬ (now - T < hourMicros) := by omega
    rw [decide_eq_false hge2]
    rfl

theorem reminder_cooldown_suppression_witness :
    (42 : Int) ∉ ([43] : List Int) ∧
    (⟨42, 7, "#2PP", none, "Alice", "x"⟩ : Binding) ∈
      group_recipients [⟨42, 7, "#2PP", none, "Alice", "x"⟩]
        (get_cooldowns [(7, 42, toEpochMicros 2025 10 12 12 0 0 0 - hourMicros)] 7
          ([(⟨42, 7, "#2PP", none, "Alice", "x"⟩ : Binding)].map (fun x => x.telegram_user_id)))
        (toEpochMicros 2025 10 12 12 0 0 0) := by
  constructor
  · exact (reminder_cooldown_suppression true
      (some ⟨some "inWar", some "20251012T150000.000Z",
        [⟨some "#2PP", .absent⟩, ⟨some "#8QQ", .absent⟩]⟩)
      (toEpochMicros 2025 10 12 12 0 0 0) 4
      [⟨42, 7, "#2PP", none, "Alice", "x"⟩, ⟨43, 7, "#8QQ", none, "Bob", "x"⟩]
      [(7, 42, toEpochMicros 2025 10 12 12 0 0 0 - 1800 * secondMicros)]
      (fun _ => true) 7 42
      (toEpochMicros 2025 10 12 12 0 0 0 - 1800 * secondMicros) [43]
      (by decide)).1 (by decide) (by decide)
  · exact (reminder_cooldown_suppression true none
      (toEpochMicros 2025 10 12 12 0 0 0) 0 [] 
      [(7, 42, toEpochMicros 2025 10 12 12 0 0 0 - hourMicros)]
      (fun _ => true) 7 42 (toEpochMicros 2025 10 12 12 0 0 0 - hourMicros) []
      (by decide)).2
      [⟨42, 7, "#2PP", none, "Alice", "x"⟩] ⟨42, 7, "#2PP", none, "Alice", "x"⟩
      (List.mem_singleton.mpr rfl) rfl (by decide)

/-- C3: a reminder tick attempts sends only when the fetched war state is
`inWar`, the war end time parses, and the remaining time is strictly
positive and at most the configured window; every group actually sent to
was attempted; and concretely, with a 4-hour window, a war ending in 5
hours produces a no-op tick while a war ending in 3 hours produces a
notification. -/
theorem reminder_window_gate :
    (∀ (enabled : Bool) (fetch : Option WarPayload) (now wh : Int)
       (bindings : BindingsTable) (cooldowns : CooldownTable) (sendOk : Int → Bool)
       (g : Int) (us : List Int),
       (g, us) ∈ (war_reminder_job enabled fetch now wh bindings cooldowns sendOk).attempts →
       ∃ payload endT, fetch = some payload ∧ payload.state = some "inWar" ∧
         parse_coc_time payload.endTime = some endT ∧
         0 < endT - now ∧ endT - now ≤ wh * hourMicros) ∧
    (∀ (enabled : Bool) (fetch : Option WarPayload) (now wh : Int)
       (bindings : BindingsTable) (cooldowns : CooldownTable) (sendOk : Int → Bool)
       (h : Int),
       h ∈ (war_reminder_job enabled fetch now wh bindings cooldowns sendOk).sent →
       h ∈ (war_reminder_job enabled fetch now wh bindings cooldowns sendOk).attempts.map
         Prod.fst) ∧
    war_reminder_job true
      (some ⟨some "inWar", some "20251012T170000.000Z", [⟨some "#2PP", .absent⟩]⟩)
      (toEpochMicros 2025 10 12 12 0 0 0) 4
      [⟨42, 7, "#2PP", none, "Alice", "x"⟩] [] (fun _ => true) = ⟨[], [], []⟩ ∧
    (war_reminder_job true
      (some ⟨some "inWar", some "20251012T150000.000Z", [⟨some "#2PP", .absent⟩]⟩)
      (toEpochMicros 2025 10 12 12 0 0 0) 4
      [⟨42, 7, "#2PP", none, "Alice", "x"⟩] [] (fun _ => true)).attempts = [(7, [42])] ∧
    (war_reminder_job true
      (some ⟨some "inWar", some "20251012T150000.000Z", [⟨some "#2PP", .absent⟩]⟩)
      (toEpochMicros 2025 10 12 12 0 0 0) 4
      [⟨42, 7, "#2PP", none, "Alice", "x"⟩] [] (fun _ => true)).sent = [7] := by
  refine ⟨?_, ?_, by decide, by decide, by decide⟩
  · intro enabled fetch now wh bindings cooldowns sendOk g us hmem
    rw [war_reminder_job_eq] at hmem
    by_cases hf : war_reminder_fires enabled fetch now wh = true
    · unfold war_reminder_fires at hf
      obtain ⟨-, hf⟩ := Bool.and_eq_true_iff.mp hf
      cases fetch with
      | none => exact absurd hf (by simp)
      | some payload =>
          obtain ⟨hf, -⟩ := Bool.and_eq_true_iff.mp hf
          obtain ⟨hst, hf⟩ := Bool.and_eq_true_iff.mp hf
          cases hp : parse_coc_time payload.endTime with
          | none => rw [hp] at hf; exact absurd hf (by simp)
          | some endT =>
              rw [hp] at hf
              dsimp only at hf
              obtain ⟨h1, h2⟩ := Bool.and_eq_true_iff.mp hf
              exact ⟨payload, endT, rfl, of_decide_eq_true hst, hp,
                of_decide_eq_true h1, of_decide_eq_true h2⟩
    · rw [if_neg hf] at hmem
      exact absurd hmem (by simp)
  · intro enabled fetch now wh bindings cooldowns sendOk h hmem
    rw [war_reminder_job_eq] at hmem ⊢
    by_cases hf : war_reminder_fires enabled fetch now wh = true
    · rw [if_pos hf] at hmem ⊢
      exact process_groups_sent_sub _ _ _ _ h _ _ hmem
    · rw [if_neg hf] at hmem
      exact absurd hmem (by simp)

theorem reminder_window_gate_witness :
    ∃ payload endT,
      (some (⟨some "inWar", some "20251012T150000.000Z",
          [⟨some "#2PP", AttacksField.absent⟩]⟩ : WarPayload)) = some payload ∧
      payload.state = some "inWar" ∧
      parse_coc_time payload.endTime = some endT ∧
      0 < endT - toEpochMicros 2025 10 12 12 0 0 0 ∧
      endT - toEpochMicros 2025 10 12 12 0 0 0 ≤ 4 * hourMicros :=
  reminder_window_gate.1 true
    (some ⟨some "inWar", some "20251012T150000.000Z", [⟨some "#2PP", .absent⟩]⟩)
    (toEpochMicros 2025 10 12 12 0 0 0) 4
    [⟨42, 7, "#2PP", none, "Alice", "x"⟩] [] (fun _ => true) 7 [42] (by decide)

/-- C4: within one reminder tick, if the send for group g raises, no
cooldown row for g is written in that tick; and processing of every other
group is unaffected: the attempted sends of the whole tick and the cooldown
rows of all other groups are identical to a run in which g's send
succeeds. -/
theorem reminder_send_failure_isolated
    (enabled : Bool) (fetch : Option WarPayload) (now wh : Int) (bindings : BindingsTable)
    (cooldowns : CooldownTable) (sendOk : Int → Bool) (g : Int) (hfail : sendOk g = false) :
    (∀ u, cd_lookup (war_reminder_job enabled fetch now wh bindings cooldowns sendOk).cooldowns g u =
      cd_lookup cooldowns g u) ∧
    (war_reminder_job enabled fetch now wh bindings cooldowns sendOk).attempts =
      (war_reminder_job enabled fetch now wh bindings cooldowns
        (fun h => if h = g then true else sendOk h)).attempts ∧
    (∀ h u, h ≠ g →
      cd_lookup (war_reminder_job enabled fetch now wh bindings cooldowns sendOk).cooldowns h u =
        cd_lookup (war_reminder_job enabled fetch now wh bindings cooldowns
          (fun h => if h = g then true else sendOk h)).cooldowns h u) := by
  rw [war_reminder_job_eq, war_reminder_job_eq]
  by_cases hf : war_reminder_fires enabled fetch now wh = true
  · rw [if_pos hf, if_pos hf]
    have hind := process_groups_send_indep bindings
      (tags_missing_attacks ((fetch.getD ⟨none, none, []⟩).clanMembers)) now sendOk g
      (get_group_ids bindings) (get_group_ids_nodup bindings) cooldowns cooldowns
      (fun _ _ _ => rfl) (fun _ _ => rfl)
    exact ⟨fun u => process_groups_no_write_on_fail bindings _ now sendOk g u hfail
      (get_group_ids bindings) cooldowns, hind.1, hind.2⟩
  · rw [if_neg hf, if_neg hf]
    exact ⟨fun u => rfl, rfl, fun h u _ => rfl⟩

theorem reminder_send_failure_isolated_witness :
    cd_lookup (war_reminder_job true
      (some ⟨some "inWar", some "20251012T150000.000Z", [⟨some "#2PP", AttacksField.absent⟩]⟩)
      (toEpochMicros 2025 10 12 12 0 0 0) 4
      [⟨42, 7, "#2PP", none, "Alice", "x"⟩] [] (fun _ => false)).cooldowns 7 42 =
      cd_lookup [] 7 42 ∧
    (war_reminder_job true
      (some ⟨some "inWar", some "20251012T150000.000Z", [⟨some "#2PP", AttacksField.absent⟩]⟩)
      (toEpochMicros 2025 10 12 12 0 0 0) 4
      [⟨42, 7, "#2PP", none, "Alice", "x"⟩] [] (fun _ => false)).attempts =
      (war_reminder_job true
        (some ⟨some "inWar", some "20251012T150000.000Z", [⟨some "#2PP", AttacksField.absent⟩]⟩)
        (toEpochMicros 2025 10 12 12 0 0 0) 4
        [⟨42, 7, "#2PP", none, "Alice", "x"⟩] []
        (fun h => if h = 7 then true else (fun _ => false) h)).attempts ∧
    cd_lookup (war_reminder_job true
      (some ⟨some "inWar", some "20251012T150000.000Z", [⟨some "#2PP", AttacksField.absent⟩]⟩)
      (toEpochMicros 2025 10 12 12 0 0 0) 4
      [⟨42, 7, "#2PP", none, "Alice", "x"⟩] [] (fun _ => false)).cooldowns 9 42 =
      cd_lookup (war_reminder_job true
        (some ⟨some "inWar", some "20251012T150000.000Z", [⟨some "#2PP", AttacksField.absent⟩]⟩)
        (toEpochMicros 2025 10 12 12 0 0 0) 4
        [⟨42, 7, "#2PP", none, "Alice", "x"⟩] []
        (fun h => if h = 7 then true else (fun _ => false) h)).cooldowns 9 42 :=
  ⟨(reminder_send_failure_isolated true
      (some ⟨some "inWar", some "20251012T150000.000Z", [⟨some "#2PP", .absent⟩]⟩)
      (toEpochMicros 2025 10 12 12 0 0 0) 4
      [⟨42, 7, "#2PP", none, "Alice", "x"⟩] [] (fun _ => false) 7 rfl).1 42,
   (reminder_send_failure_isolated true
      (some ⟨some "inWar", some "20251012T150000.000Z", [⟨some "#2PP", .absent⟩]⟩)
      (toEpochMicros 2025 10 12 12 0 0 0) 4
      [⟨42, 7, "#2PP", none, "Alice", "x"⟩] [] (fun _ => false) 7 rfl).2.1,
   (reminder_send_failure_isolated true
      (some ⟨some "inWar", some "20251012T150000.000Z", [⟨some "#2PP", .absent⟩]⟩)
      (toEpochMicros 2025 10 12 12 0 0 0) 4
      [⟨42, 7, "#2PP", none, "Alice", "x"⟩] [] (fun _ => false) 7 rfl).2.2 9 42 (by decide)⟩

end CocTelegramm
